import Mathlib

/-!
Verification development for the AWS wire-protocol decoder of `proxy.go`
(package main of tolidano/iamlive).  The Go source is shallowly embedded:

* Go strings are Lean `String`s (a wrapper around `List Char`); the ASCII
  subset of `strings.ToLower` / byte indexing is modelled on characters.
* Go maps (`map[string]T`) are association lists in their (one, fixed)
  iteration order; indexing a missing key yields the zero value, as in Go.
* Recursion that is unbounded in Go (shape dereferencing through the shape
  table, JSON decoding, regex backtracking) takes an explicit fuel argument;
  exhausted fuel is reported as a distinct `diverge` outcome.
* Go runtime faults (string-slice bounds violations, index out of range,
  nil-pointer dereference) are modelled as a distinct `fault` outcome that
  propagates, mirroring an uncaught panic.
* Fallible standard-library calls (`url.ParseRequestURI`, `url.ParseQuery`,
  `json.Unmarshal`) are embedded as `Option`-returning parsers restricted to
  the fragments the proxy exercises: origin-form request URIs, ASCII
  percent-escapes, and JSON with integer numerals.
-/

namespace Iamlive

/-! ### Character and string helpers (ASCII models of Go's `strings` ops) -/

/-- ASCII lower-casing of one character (model of `strings.ToLower` per byte). -/
def chLower (c : Char) : Char :=
  if 'A' ≤ c ∧ c ≤ 'Z' then Char.ofNat (c.toNat + 32) else c

/-- ASCII model of Go `strings.ToLower`. -/
def strLower (s : String) : String :=
  String.mk (s.data.map chLower)

/-- Split a character list on a separator character; mirrors Go
`strings.Split` with a one-character separator (never returns `[]`). -/
def chSplit (sep : Char) : List Char → List (List Char)
  | [] => [[]]
  | c :: rest =>
    let r := chSplit sep rest
    if c = sep then [] :: r
    else
      match r with
      | h :: t => (c :: h) :: t
      | [] => [[c]]

/-- Go `strings.Split(s, sep)` for a one-character separator. -/
def strSplit (s : String) (sep : Char) : List String :=
  (chSplit sep s.data).map String.mk

/-- Go `strings.HasSuffix` / regex `suf$`. -/
def strEndsWith (s suf : String) : Bool :=
  (decide (suf.data.length ≤ s.data.length)) &&
    (s.data.drop (s.data.length - suf.data.length) == suf.data)

/-- Drop the last `n` characters (Go slice `s[:len(s)-n]`, length permitting). -/
def strDropLast (s : String) (n : Nat) : String :=
  String.mk (s.data.take (s.data.length - n))

/-- Whether the string ends with the two characters `[]`
(Go `s[len(s)-2:] == "[]"`, which is only evaluated when `len(s) ≥ 2`). -/
def endsBr (s : String) : Bool :=
  strEndsWith s "[]"

/-- First character, or a default for the empty string (Go `s[0]` guarded). -/
def strFront (s : String) : Char :=
  s.data.headD ' '

/-! ### Index normalization (lines 322-323 / 378-379 of proxy.go)

`regexp.MustCompile("\\.member\\.[0-9]+").ReplaceAllString(k, "[]")` followed by
`regexp.MustCompile("\\.[0-9]+").ReplaceAllString(k, "[]")`: non-overlapping
leftmost matches, greedy digit runs.  Both passes are embedded as left-to-right
character scans; the fuel argument is called with `length + 1`, enough for the
scans that consume at least one character per step. -/

/-- One replacement pass for the pattern `\.member\.[0-9]+`. -/
def stripMemberIdx : Nat → List Char → List Char
  | 0, l => l
  | f+1, '.' :: 'm' :: 'e' :: 'm' :: 'b' :: 'e' :: 'r' :: '.' :: d :: rest =>
    if d.isDigit then
      '[' :: ']' :: stripMemberIdx f (rest.dropWhile Char.isDigit)
    else
      '.' :: stripMemberIdx f ('m' :: 'e' :: 'm' :: 'b' :: 'e' :: 'r' :: '.' :: d :: rest)
  | f+1, c :: rest => c :: stripMemberIdx f rest
  | _+1, [] => []

/-- One replacement pass for the pattern `\.[0-9]+`. -/
def stripNumIdx : Nat → List Char → List Char
  | 0, l => l
  | f+1, '.' :: d :: rest =>
    if d.isDigit then
      '[' :: ']' :: stripNumIdx f (rest.dropWhile Char.isDigit)
    else
      '.' :: stripNumIdx f (d :: rest)
  | f+1, c :: rest => c :: stripNumIdx f rest
  | _+1, [] => []

/-- Index normalization of a wire key: first every `.member.<N>` segment is
replaced by `[]`, then every remaining `.<N>` segment (lines 322-323). -/
def normalizeKey (s : String) : String :=
  let l1 := stripMemberIdx (s.data.length + 1) s.data
  String.mk (stripNumIdx (l1.length + 1) l1)

/-! ### Service model (struct declarations of proxy.go, lines 170-208)

`map[string]T` fields become association lists in iteration order; indexing
a missing key yields the zero value, as in Go. -/

/-- Go struct `ServiceStructure` — a node of the schema tree.  Fields in
source order: `Shape`, `Type`, `Member`, `Members`, `LocationName`,
`QueryName`. -/
inductive ServiceStructure where
  | mk (shape : String) (type : String) (member : Option ServiceStructure)
       (members : List (String × ServiceStructure))
       (locationName : String) (queryName : String)

def ServiceStructure.shape : ServiceStructure → String
  | .mk s _ _ _ _ _ => s

def ServiceStructure.type : ServiceStructure → String
  | .mk _ t _ _ _ _ => t

def ServiceStructure.member : ServiceStructure → Option ServiceStructure
  | .mk _ _ m _ _ _ => m

def ServiceStructure.members : ServiceStructure → List (String × ServiceStructure)
  | .mk _ _ _ ms _ _ => ms

def ServiceStructure.locationName : ServiceStructure → String
  | .mk _ _ _ _ l _ => l

def ServiceStructure.queryName : ServiceStructure → String
  | .mk _ _ _ _ _ q => q

/-- The zero value of `ServiceStructure`. -/
def zeroSS : ServiceStructure := .mk "" "" none [] "" ""

structure ServiceHttp where
  method : String := ""
  requestURI : String := ""
  responseCode : Nat := 0
deriving Repr

structure ServiceOperation where
  http : ServiceHttp := {}
  input : ServiceStructure := zeroSS
  output : ServiceStructure := zeroSS

/-- The zero value of `ServiceOperation`. -/
def zeroOp : ServiceOperation := {}

structure ServiceDefinitionMetadata where
  apiVersion : String := ""
  endpointPrefix : String := ""
  jsonVersion : String := ""
  protocol : String := ""
  serviceFullName : String := ""
  serviceID : String := ""
  signatureVersion : String := ""
  targetPrefix : String := ""
  uid : String := ""
deriving Repr

structure ServiceDefinition where
  version : String := ""
  metadata : ServiceDefinitionMetadata := {}
  operations : List (String × ServiceOperation) := []
  shapes : List (String × ServiceStructure) := []

/-- The zero value of `ServiceDefinition` (what `var serviceDef
ServiceDefinition` declares at line 274). -/
def zeroDef : ServiceDefinition := {}

/-- Go map indexing with zero-value default: `shapes[name]`. -/
def lookupSS (shapes : List (String × ServiceStructure)) (name : String) : ServiceStructure :=
  (shapes.lookup name).getD zeroSS

/-- Go map indexing with zero-value default: `serviceDef.Operations[action]`. -/
def lookupOp (ops : List (String × ServiceOperation)) (name : String) : ServiceOperation :=
  (ops.lookup name).getD zeroOp

/-! ### Shape Resolver (`resolvePropertyName`, lines 416-473) -/

/-- Outcome of a resolver call.  `ok` is the function's string return value,
`fault` models a Go runtime panic (string-slice bounds violation at line 417,
or the nil dereference `*obj.Member` at line 466), and `diverge` models
running out of fuel (Go would recurse without bound on such inputs). -/
inductive RRes where
  | ok (s : String)
  | fault
  | diverge
deriving DecidableEq, Repr

/-- One trailing `[]` stripped when present (lines 417-419; Go first
evaluates `searchProp[len(searchProp)-2:]`, so the caller must already have
ruled the under-length fault out). -/
def stripBr (s : String) : String :=
  if endsBr s then strDropLast s 2 else s

/-- Classification of the `switch obj.Type` arms (lines 429-470); the
literals being pairwise distinct, the chain agrees with the Go switch.
`dead` are the opaque leaves of line 430, `otherK` the unlisted types that
fall through to the final `return ""`. -/
inductive TKind where
  | dead
  | structK
  | scalarK
  | listK
  | otherK
deriving DecidableEq, Repr

def tyKind (t : String) : TKind :=
  if t = "boolean" ∨ t = "timestamp" ∨ t = "blob" ∨ t = "map" then .dead
  else if t = "structure" then .structK
  else if t = "long" ∨ t = "float" ∨ t = "integer" ∨ t = "" ∨ t = "string" then .scalarK
  else if t = "list" then .listK
  else .otherK

/-- The scalar-leaf trimming of the accumulated wire path (lines 452-457):
one trailing `[]` is removed when the path is longer than two characters,
then one leading `.`. -/
def trimWire (lp : String) : String :=
  let lp := if 2 < lp.data.length ∧ endsBr lp then strDropLast lp 2 else lp
  if 0 < lp.data.length ∧ strFront lp = '.' then String.mk (lp.data.drop 1) else lp

/-- The member loop of the `"structure"` case (lines 433-450): the wire-path
segment of member `(k, v)` is `v.queryName` when set, else `v.locationName`
when set, else `k`; the first member whose recursive resolution is nonempty
wins, and a fault or fuel exhaustion propagates. -/
def structLoop (recur : ServiceStructure → String → String → RRes) :
    List (String × ServiceStructure) → String → String → RRes
  | [], _, _ => .ok ""
  | (k, v) :: rest, path, locationPath =>
    let newPath := if path = "" then k else path ++ "." ++ k
    let newLocationPath :=
      if v.queryName ≠ "" then locationPath ++ "." ++ v.queryName
      else if v.locationName ≠ "" then locationPath ++ "." ++ v.locationName
      else locationPath ++ "." ++ k
    match recur v newPath newLocationPath with
    | .ok "" => structLoop recur rest path locationPath
    | r => r

/-- The resolver `resolvePropertyName` (lines 416-473).  Go evaluates
`searchProp[len(searchProp)-2:]` unconditionally, which faults when the key
is shorter than two characters; a `"list"` shape whose `Member` is absent
faults on `*obj.Member`. -/
def resolvePropertyName : Nat → ServiceStructure → String → String → String →
    List (String × ServiceStructure) → RRes
  | 0, _, _, _, _, _ => .diverge
  | fuel+1, obj, searchProp, path, locationPath, shapes =>
    if searchProp.data.length < 2 then .fault
    else
      let searchProp := stripBr searchProp
      let obj := if obj.shape ≠ "" then
          let d := lookupSS shapes obj.shape
          ServiceStructure.mk d.shape d.type d.member d.members obj.locationName obj.queryName
        else obj
      match tyKind obj.type with
      | .dead => .ok ""
      | .structK =>
        structLoop (fun v p lp => resolvePropertyName fuel v searchProp p lp shapes)
          obj.members path locationPath
      | .scalarK =>
        if strLower (trimWire locationPath) = strLower searchProp then .ok path else .ok ""
      | .listK =>
        match obj.member with
        | none => .fault
        | some m =>
          match resolvePropertyName fuel m searchProp (path ++ "[]") (locationPath ++ "[]") shapes with
          | .ok "" => .ok ""
          | r => r
      | .otherK => .ok ""

/-! ### Decoded JSON values and the Value Flattener (`flatten`, lines 236-268)

A decoded `interface{}` is a `Json` value.  Numbers are restricted to
integer literals (Go decodes to `float64`; `fmt.Sprintf("%v", …)` renders an
integral float without a decimal point, which `toString ∘ Int` matches). -/

inductive Json where
  | obj (fields : List (String × Json))
  | arr (elems : List Json)
  | str (s : String)
  | num (n : Int)
  | bool (b : Bool)
  | null

/-- Whether the value is neither an object nor an array (the `default:`
arm of `flatten`'s outer switch). -/
def isScalarJson : Json → Bool
  | .obj _ => false
  | .arr _ => false
  | _ => true

/-- Go `fmt.Sprintf("%v", v)` for decoded scalars: strings verbatim, integral
floats without a decimal point, `true`/`false`, and `<nil>` for JSON null. -/
def renderScalar : Json → String
  | .str s => s
  | .num n => toString n
  | .bool b => if b then "true" else "false"
  | .null => "<nil>"
  | .obj _ => ""
  | .arr _ => ""

/-- The flat `path → values` accumulator (`map[string][]string`), in
insertion order. -/
abbrev FlatMap := List (String × List String)

/-- Replace the binding of `k` (or append a new one): Go map assignment. -/
def fmSet (m : FlatMap) (k : String) (vs : List String) : FlatMap :=
  if (m.lookup k).isSome then
    m.map (fun p => if p.1 = k then (k, vs) else p)
  else m ++ [(k, vs)]

/-- Go map read with zero-value default: `m[k]` is `[]` when absent. -/
def fmGet (m : FlatMap) (k : String) : List String :=
  (m.lookup k).getD []

/-- Go `flatMap[newKey] = append(flatMap[newKey], v)` for one value. -/
def fmAppend1 (m : FlatMap) (k v : String) : FlatMap :=
  fmSet m k (fmGet m k ++ [v])

/-- The flattener `flatten` (lines 236-268).  The local closure `assign` recurses into
objects and arrays and appends the rendered scalar otherwise; note that the
error `assign` can report is discarded at every call site inside `flatten`
itself (lines 254, 256, 261), so the only observable error is a scalar at
the top of an invocation (`"invalid object type"`), reported as `none`.
Fuel exhaustion is also `none` (unreachable with fuel above the value's
depth). -/
def flattenGo : Nat → Bool → FlatMap → Json → String → Option FlatMap
  | 0, _, _, _, _ => none
  | fuel+1, top, flatMap, nested, pre =>
    let assign : FlatMap → String → Json → FlatMap := fun acc newKey v =>
      match v with
      | .obj _ => (flattenGo fuel false acc v newKey).getD acc
      | .arr _ => (flattenGo fuel false acc v newKey).getD acc
      | _ => fmAppend1 acc newKey (renderScalar v)
    match nested with
    | .obj fields =>
      some (fields.foldl (fun acc kv =>
        if top then assign acc kv.1 kv.2 else assign acc (pre ++ "." ++ kv.1) kv.2) flatMap)
    | .arr elems =>
      some (elems.foldl (fun acc v => assign acc (pre ++ "[]") v) flatMap)
    | _ => none

/-! ### net/url fragments used by the dispatcher

`url.ParseRequestURI` is modelled for origin-form request URIs (the form a
MITM'd HTTPS request carries): an absolute path, optionally followed by
`?rawQuery`, with ASCII percent-escapes decoded in the path and control
characters rejected.  `url.Values` query parsing follows Go's `parseQuery`
loop: components split on `&`, a component containing `;` or failing to
unescape is an error, `key=value` split at the first `=`. -/

/-- Hex digit value, if any. -/
def hexVal (c : Char) : Option Nat :=
  if '0' ≤ c ∧ c ≤ '9' then some (c.toNat - '0'.toNat)
  else if 'a' ≤ c ∧ c ≤ 'f' then some (c.toNat - 'a'.toNat + 10)
  else if 'A' ≤ c ∧ c ≤ 'F' then some (c.toNat - 'A'.toNat + 10)
  else none

/-- Percent-unescaping.  In query mode (`plusSpace = true`) a `+` becomes a
space, as in `url.QueryUnescape`; in path mode it is literal. -/
def unescape (plusSpace : Bool) : List Char → Option (List Char)
  | [] => some []
  | '%' :: a :: b :: rest =>
    match hexVal a, hexVal b with
    | some ha, some hb => (unescape plusSpace rest).map (Char.ofNat (16 * ha + hb) :: ·)
    | _, _ => none
  | '%' :: _ :: [] => none
  | '%' :: [] => none
  | '+' :: rest =>
    (unescape plusSpace rest).map ((if plusSpace then ' ' else '+') :: ·)
  | c :: rest => (unescape plusSpace rest).map (c :: ·)

/-- Split at the first occurrence of a character: Go `strings.Cut`. -/
def strCut (s : String) (sep : Char) : String × String × Bool :=
  match chSplit sep s.data with
  | [] => (s, "", false)
  | [whole] => (String.mk whole, "", false)
  | h :: t => (String.mk h, String.intercalate (String.mk [sep]) (t.map String.mk), true)

/-- Go `url.ParseRequestURI` restricted to origin-form URIs: yields the decoded
path and the raw query.  Control characters or an empty/non-absolute URI are
parse errors, as in Go. -/
def parseRequestURI (uri : String) : Option (String × String) :=
  if uri.data.length = 0 then none
  else if uri.data.any (fun c => c.toNat < 0x20 ∨ c.toNat = 0x7f) then none
  else if strFront uri ≠ '/' then none
  else
    let (rawPath, rawQuery, _) := strCut uri '?'
    (unescape false rawPath.data).map (fun p => (String.mk p, rawQuery))

/-- One decoded query component, or `none` for an erroneous one
(semicolon, empty, or bad escape).  `none` with `errored = true` marks an
error, `none` with `errored = false` an empty component to be skipped. -/
def queryComp (comp : String) : Option (Option (String × String)) :=
  if comp.data.contains ';' then none
  else if comp.data.length = 0 then some none
  else
    let (k, v, _) := strCut comp '='
    match unescape true k.data, unescape true v.data with
    | some k2, some v2 => some (some (String.mk k2, String.mk v2))
    | _, _ => none

/-- The `url.Values` accumulation loop over the split components.  `lenient`
mirrors `URL.Query()` (errors skipped, partial map kept); strict mode
mirrors `url.ParseQuery`'s caller at line 365-368, which aborts on error. -/
def queryFold (lenient : Bool) : List String → FlatMap → Option FlatMap
  | [], m => some m
  | comp :: rest, m =>
    match queryComp comp with
    | none => if lenient then queryFold lenient rest m else none
    | some none => queryFold lenient rest m
    | some (some (k, v)) => queryFold lenient rest (fmSet m k (fmGet m k ++ [v]))

/-- Go `urlobj.Query()`: parse, ignoring errors. -/
def parseQueryLenient (rawQuery : String) : FlatMap :=
  if rawQuery.data.length = 0 then []
  else (queryFold true ((chSplit '&' rawQuery.data).map String.mk) []).getD []

/-- Go `url.ParseQuery` with the error observed (lines 365-368). -/
def parseQueryStrict (body : String) : Option FlatMap :=
  if body.data.length = 0 then some []
  else queryFold false ((chSplit '&' body.data).map String.mk) []

/-! ### The rest-json URI-template matcher (lines 303-318)

Go builds `"^" + template-with-{x}-replaced-by-([^/]+) + "$"` and runs it
over the decoded path.  Template text is spliced into the pattern unquoted;
of the regex metacharacters only `.` realistically occurs in AWS request
URIs, so the embedding treats `.` as the regex any-character and every
other non-placeholder character as a literal.  Matching is anchored
backtracking with greedy wildcards, Go's (Perl-like) leftmost-first
semantics for this pattern shape. -/

inductive Tok where
  | lit (c : Char)
  | any
  | wild (name : String)
deriving DecidableEq, Repr

/-- Parse a request-URI template into pattern tokens.  A `{name}` whose body
is nonempty and contains neither `/` nor `}` becomes a capturing wildcard
(`([^/]+)` substituted for `{([^/]+?)}`); any other `{` stays literal. -/
def parseTemplate : Nat → List Char → List Tok
  | 0, _ => []
  | _+1, [] => []
  | f+1, '{' :: rest =>
    let content := rest.takeWhile (· ≠ '}')
    match rest.drop content.length with
    | '}' :: tail =>
      if content ≠ [] ∧ ¬ content.contains '/' then
        .wild (String.mk content) :: parseTemplate f tail
      else .lit '{' :: parseTemplate f rest
    | _ => .lit '{' :: parseTemplate f rest
  | f+1, '.' :: rest => .any :: parseTemplate f rest
  | f+1, c :: rest => .lit c :: parseTemplate f rest

/-- The placeholder names of a template, in order (Go's `templateMatches`). -/
def tokNames (toks : List Tok) : List String :=
  toks.filterMap (fun t => match t with | .wild n => some n | _ => none)

/-- Anchored match of the token pattern against the path, returning the
captured wildcard substrings.  A wildcard consumes one to
`takeWhile (≠ '/')`-many characters, longest first. -/
def tmatch : Nat → List Tok → List Char → Option (List String)
  | 0, _, _ => none
  | _+1, [], [] => some []
  | _+1, [], _ :: _ => none
  | f+1, .lit c :: ts, x :: xs => if x = c then tmatch f ts xs else none
  | _+1, .lit _ :: _, [] => none
  | f+1, .any :: ts, x :: xs => if x = '\n' then none else tmatch f ts xs
  | _+1, .any :: _, [] => none
  | f+1, .wild _ :: ts, xs =>
    let run := (xs.takeWhile (· ≠ '/')).length
    ((List.range run).map (· + 1)).reverse.findSome? (fun k =>
      match tmatch f ts (xs.drop k) with
      | some caps => some (String.mk (xs.take k) :: caps)
      | none => none)

/-- Compile-and-match for one operation (lines 304-306): the pattern fuel is
derived from the inputs, ample for the scan and backtracking depth. -/
def opURIMatch (op : ServiceOperation) (path : String) : Option (List String) :=
  tmatch (path.data.length + op.http.requestURI.data.length + 2)
    (parseTemplate (op.http.requestURI.data.length + 1) op.http.requestURI.data) path.data

/-! ### The json body decoder (`json.Unmarshal` into `interface{}`)

Restricted to the fragment the claims exercise: objects, arrays, strings
with the common escapes, integer numerals, `true`/`false`/`null`. -/

/-- Leading JSON whitespace. -/
def skipWs (l : List Char) : List Char :=
  l.dropWhile (fun c => c = ' ' ∨ c = '\t' ∨ c = '\n' ∨ c = '\r')

/-- JSON string body scanner, after the opening quote. -/
def jStr : List Char → List Char → Option (String × List Char)
  | [], _ => none
  | '"' :: r, acc => some (String.mk acc.reverse, r)
  | '\\' :: e :: r, acc =>
    match e with
    | '"' => jStr r ('"' :: acc)
    | '\\' => jStr r ('\\' :: acc)
    | '/' => jStr r ('/' :: acc)
    | 'n' => jStr r ('\n' :: acc)
    | 't' => jStr r ('\t' :: acc)
    | 'r' => jStr r ('\r' :: acc)
    | 'b' => jStr r (Char.ofNat 8 :: acc)
    | 'f' => jStr r (Char.ofNat 12 :: acc)
    | 'u' =>
      match r with
      | a :: b :: c :: d :: r2 =>
        match hexVal a, hexVal b, hexVal c, hexVal d with
        | some ha, some hb, some hc, some hd =>
          jStr r2 (Char.ofNat (((ha * 16 + hb) * 16 + hc) * 16 + hd) :: acc)
        | _, _, _, _ => none
      | _ => none
    | _ => none
  | '\\' :: [], _ => none
  | c :: r, acc => if c.toNat < 0x20 then none else jStr r (c :: acc)

/-- Integer numeral scanner. -/
def jNum (l : List Char) : Option (Int × List Char) :=
  let (neg, l2) := match l with | '-' :: r => (true, r) | _ => (false, l)
  let ds := l2.takeWhile Char.isDigit
  let rest := l2.drop ds.length
  if ds = [] then none
  else
    -- a fraction or exponent would make this a non-integer literal,
    -- outside the modelled fragment
    match rest with
    | '.' :: _ => none
    | 'e' :: _ => none
    | 'E' :: _ => none
    | _ =>
      let n : Nat := ds.foldl (fun a c => a * 10 + (c.toNat - '0'.toNat)) 0
      some (if neg then -(n : Int) else (n : Int), rest)

/-- Parser modes: a value, the tail of an object, the tail of an array. -/
inductive JMode where
  | val
  | objTail (first : Bool) (acc : List (String × Json))
  | arrTail (first : Bool) (acc : List Json)

/-- Recursive-descent JSON parser (fuel-indexed). -/
def jGo : Nat → JMode → List Char → Option (Json × List Char)
  | 0, _, _ => none
  | f+1, .val, l =>
    match skipWs l with
    | '{' :: rest => jGo f (.objTail true []) rest
    | '[' :: rest => jGo f (.arrTail true []) rest
    | '"' :: rest => (jStr rest []).map (fun p => (.str p.1, p.2))
    | 't' :: 'r' :: 'u' :: 'e' :: r => some (.bool true, r)
    | 'f' :: 'a' :: 'l' :: 's' :: 'e' :: r => some (.bool false, r)
    | 'n' :: 'u' :: 'l' :: 'l' :: r => some (.null, r)
    | l2 => (jNum l2).map (fun p => (.num p.1, p.2))
  | f+1, .objTail first acc, l =>
    match skipWs l with
    | '}' :: r => if first then some (.obj acc.reverse, r) else none
    | '"' :: rest =>
      match jStr rest [] with
      | none => none
      | some (k, r1) =>
        match skipWs r1 with
        | ':' :: r2 =>
          match jGo f .val r2 with
          | none => none
          | some (v, r3) =>
            match skipWs r3 with
            | ',' :: r4 => jGo f (.objTail false ((k, v) :: acc)) r4
            | '}' :: r4 => some (.obj (((k, v) :: acc).reverse), r4)
            | _ => none
        | _ => none
    | _ => none
  | f+1, .arrTail first acc, l =>
    match skipWs l with
    | ']' :: r => if first then some (.arr acc.reverse, r) else none
    | l2 =>
      match jGo f .val l2 with
      | none => none
      | some (v, r1) =>
        match skipWs r1 with
        | ',' :: r2 => jGo f (.arrTail false (v :: acc)) r2
        | ']' :: r2 => some (.arr ((v :: acc).reverse), r2)
        | _ => none

/-- Go `json.Unmarshal(body, &bodyJSON)`: a single value with only trailing
whitespace after it. -/
def jsonUnmarshal (body : String) : Option Json :=
  match jGo (body.data.length * 2 + 8) .val body.data with
  | some (j, rest) => if skipWs rest = [] then some j else none
  | none => none

/-! ### Host classification, region extraction and the dispatcher
(`createProxy` line 158, `handleAWSRequest` lines 270-414) -/

/-- The hostname filter of `createProxy` (line 158):
`regexp.MatchString("^.*\\.amazonaws\\.com(?:\\.cn)?$", req.Host)`. -/
def isAWSHostname (host : String) : Bool :=
  strEndsWith host ".amazonaws.com" || strEndsWith host ".amazonaws.com.cn"

/-- Outcome of the host check at lines 275-288. -/
inductive HostC where
  | notAWS
  | faultH
  | derived (p : String)
deriving DecidableEq, Repr

/-- Lines 275-280: split the host on `.`, require the last label `com` and
the second-to-last `amazonaws` (note: NOT satisfied by `….amazonaws.com.cn`
hosts, whose last label is `cn`), and read the endpoint prefix from the
third- or fourth-to-last label.  Go's negative indices
(`hostSplit[len-2]` for a one-label host, `hostSplit[len-3]` for
`amazonaws.com` itself) fault. -/
def classifyHost (host : String) : HostC :=
  let hostSplit := strSplit host '.'
  if hostSplit.getLastD "" = "com" then
    if hostSplit.length < 2 then .faultH
    else if hostSplit.getD (hostSplit.length - 2) "" = "amazonaws" then
      if hostSplit.length < 3 then .faultH
      else if 3 < hostSplit.length then .derived (hostSplit.getD (hostSplit.length - 4) "")
      else .derived (hostSplit.getD (hostSplit.length - 3) "")
    else .notAWS
  else .notAWS

/-- Lines 396-401: `\.(.+)\.amazonaws\.com(?:\.cn)?$` — the region is the
text between the first `.` of the host and the trailing
`.amazonaws.com[.cn]` suffix, when nonempty; else `us-east-1`. -/
def regionFromHost (host : String) : String :=
  let base :=
    if strEndsWith host ".amazonaws.com.cn" then some (strDropLast host 17)
    else if strEndsWith host ".amazonaws.com" then some (strDropLast host 14)
    else none
  match base with
  | none => "us-east-1"
  | some b =>
    match strSplit b '.' with
    | [] => "us-east-1"
    | [_] => "us-east-1"
    | _ :: rest =>
      let t := String.intercalate "." rest
      if t = "" then "us-east-1" else t

/-- Go `map[string]string` assignment for `uriparams`. -/
def upSet (m : List (String × String)) (k v : String) : List (String × String) :=
  if (m.lookup k).isSome then m.map (fun p => if p.1 = k then (k, v) else p)
  else m ++ [(k, v)]

/-- One iteration of the rest-json operation loop (lines 303-318): on a
method-and-pattern match the action becomes this operation's name and each
placeholder is bound to its captured path segment (the `uriparams` map is
shared across iterations, later matches overwriting earlier bindings). -/
def opStep (method path : String) (acc : String × List (String × String))
    (x : String × ServiceOperation) : String × List (String × String) :=
  let names := tokNames
    (parseTemplate (x.2.http.requestURI.data.length + 1) x.2.http.requestURI.data)
  match opURIMatch x.2 path with
  | some caps =>
    if x.2.http.method = method then
      let ups := if names.length = caps.length then
          (names.zip caps).foldl (fun m p => upSet m p.1 p.2) acc.2
        else acc.2
      (x.1, ups)
    else acc
  | none => acc

/-- Outcome of the key-resolution loop over decoded query/form values. -/
inductive QRes where
  | ok (m : FlatMap)
  | fault
  | diverge
deriving DecidableEq, Repr

/-- The per-key normalization-resolution-accumulation loop (lines 321-335,
and 376-391 with `Action`/`Version` skipped): normalize the key, try the
Shape Resolver against the operation input, keep the resolved name when
nonempty, and accumulate values.  A resolver fault or fuel exhaustion
propagates. -/
def queryResolveFold (fuel : Nat) (input : ServiceStructure)
    (shapes : List (String × ServiceStructure)) (skipAV : Bool) :
    List (String × List String) → FlatMap → QRes
  | [], params => .ok params
  | (k, v) :: rest, params =>
    if skipAV ∧ (k = "Action" ∨ k = "Version") then
      queryResolveFold fuel input shapes skipAV rest params
    else
      let normalizedK := normalizeKey k
      match resolvePropertyName fuel input normalizedK "" "" shapes with
      | .fault => .fault
      | .diverge => .diverge
      | .ok r =>
        let nk := if r ≠ "" then r else normalizedK
        queryResolveFold fuel input shapes skipAV rest
          (if 0 < (fmGet params nk).length then fmSet params nk (fmGet params nk ++ v)
           else fmSet params nk v)

/-- Outcome of one protocol branch of the dispatcher: an action plus the
collected parameters, an early `return` (`stop`), or a propagated fault /
fuel exhaustion. -/
inductive BOut where
  | out (action : String) (params : FlatMap) (uriparams : List (String × String))
  | stop
  | fault
  | diverge
deriving DecidableEq, Repr

/-- The `rest-json` branch (lines 294-346): parse the request URI, run the
operation loop over the path, resolve the query keys, then decode and
flatten a nonempty body (the flattener's error being discarded, line 345). -/
def restJsonBranch (fuel : Nat) (sd : ServiceDefinition) (method uri body : String) : BOut :=
  match parseRequestURI uri with
  | none => .stop
  | some (path, rawQuery) =>
    let vals := parseQueryLenient rawQuery
    let au := sd.operations.foldl (opStep method path) ("*", [])
    match queryResolveFold fuel (lookupOp sd.operations au.1).input sd.shapes false vals [] with
    | .fault => .fault
    | .diverge => .diverge
    | .ok params =>
      if 0 < body.data.length then
        match jsonUnmarshal body with
        | none => .stop
        | some bodyJSON =>
          .out au.1 ((flattenGo fuel true params bodyJSON "").getD params) au.2
      else .out au.1 params au.2

/-- The `json` branch (lines 347-362): decode the body, then read the action
as `strings.Split(header, ".")[1]`, which faults when the header contains no
dot; the flattener's error is again discarded (line 356). -/
def jsonBranch (fuel : Nat) (amzTarget body : String) : BOut :=
  match jsonUnmarshal body with
  | none => .stop
  | some bodyJSON =>
    if amzTarget ≠ "" then
      match (strSplit amzTarget '.').get? 1 with
      | none => .fault
      | some action => .out action ((flattenGo fuel true [] bodyJSON "").getD []) []
    else .stop

/-- The `ec2`/`query` branch (lines 363-394): URL-decode the body, require
exactly one `Action` and one `Version`, and resolve the remaining keys when
the operation input is a structure. -/
def ec2QueryBranch (fuel : Nat) (sd : ServiceDefinition) (body : String) : BOut :=
  match parseQueryStrict body with
  | none => .stop
  | some vals =>
    if (fmGet vals "Action").length = 1 ∧ (fmGet vals "Version").length = 1 then
      let action := (fmGet vals "Action").headD ""
      if (lookupOp sd.operations action).input.type = "structure" then
        match queryResolveFold fuel (lookupOp sd.operations action).input sd.shapes true vals [] with
        | .fault => .fault
        | .diverge => .diverge
        | .ok params => .out action params []
      else .out action [] []
    else .stop

/-- Dispatch on `serviceDef.Metadata.Protocol`; any other protocol (in
particular the empty protocol of the zero-value definition) falls through
with the initial `action = "*"` and empty maps (lines 290-292). -/
def dispatchBranch (fuel : Nat) (sd : ServiceDefinition)
    (method uri amzTarget body : String) : BOut :=
  if sd.metadata.protocol = "rest-json" then restJsonBranch fuel sd method uri body
  else if sd.metadata.protocol = "json" then jsonBranch fuel amzTarget body
  else if sd.metadata.protocol = "ec2" ∨ sd.metadata.protocol = "query" then
    ec2QueryBranch fuel sd body
  else .out "*" [] []

/-- The call record appended to the log (lines 403-411); the `Entry` type is
declared outside this file, its shape read off the append site. -/
structure Entry where
  region : String
  type : String
  service : String
  method : String
  parameters : FlatMap
  uriParameters : List (String × String)
  finalHTTPStatusCode : Nat
deriving DecidableEq, Repr

/-- The observable outcome of `handleAWSRequest`: the appended call record,
no append (an early `return`), a runtime fault, or fuel exhaustion. -/
inductive HResult where
  | record (e : Entry)
  | noRecord
  | fault
  | diverge
deriving DecidableEq, Repr

/-- Lines 281-285: scan all loaded definitions, the last one whose
`endpointPrefix` equals the derived prefix winning, starting from the
zero value. -/
def selectDef (defs : List ServiceDefinition) (pfx : String) : ServiceDefinition :=
  defs.foldl (fun acc d => if d.metadata.endpointPrefix = pfx then d else acc) zeroDef

/-- Lines 396-413: turn the branch outcome into the appended call record
(or into no record / a propagated fault). -/
def emitLog (host : String) (sd : ServiceDefinition) (respCode : Nat) : BOut → HResult
  | .stop => .noRecord
  | .fault => .fault
  | .diverge => .diverge
  | .out action params uriparams =>
    .record {
      region := regionFromHost host
      type := "ProxyCall"
      service := sd.metadata.serviceID
      method := action
      parameters := params
      uriParameters := uriparams
      finalHTTPStatusCode := respCode }

/-- The handler `handleAWSRequest` (lines 270-414): classify the host, select the last
matching service definition, run the protocol branch, and append the call
record.  The `X-Amz-Target` header is passed as a string, `""` when absent
(Go `req.Header.Get`). -/
def handleAWSRequest (fuel : Nat) (defs : List ServiceDefinition)
    (host method uri amzTarget body : String) (respCode : Nat) : HResult :=
  match classifyHost host with
  | .notAWS => .noRecord
  | .faultH => .fault
  | .derived pfx =>
    emitLog host (selectDef defs pfx) respCode
      (dispatchBranch fuel (selectDef defs pfx) method uri amzTarget body)

/-! ### Concrete service definitions and shapes used by the theorems -/

/-- Leaf member `Name` with `locationName` override `FilterName`. -/
def nameOverrideSh : ServiceStructure := .mk "" "string" none [] "FilterName" ""

/-- Structure holding the overridden `Name` member. -/
def filterStructSh : ServiceStructure := .mk "" "structure" none [("Name", nameOverrideSh)] "" ""

/-- List whose element is `filterStructSh`. -/
def filtersListSh : ServiceStructure := .mk "" "list" (some filterStructSh) [] "" ""

/-- Input shape with a single member `Filters` (the spec's override example). -/
def filtersRootSh : ServiceStructure := .mk "" "structure" none [("Filters", filtersListSh)] "" ""

/-- Leaf with both `queryName` and `locationName` set. -/
def bothOverrideSh : ServiceStructure := .mk "" "string" none [] "LN" "QN"

/-- Structure member `Mm` with both overrides (queryName must win). -/
def bothRootSh : ServiceStructure := .mk "" "structure" none [("Mm", bothOverrideSh)] "" ""

/-- Leaf with only `locationName` set. -/
def locOverrideSh : ServiceStructure := .mk "" "string" none [] "LN" ""

/-- Structure member `Mm` with only a `locationName` override. -/
def locRootSh : ServiceStructure := .mk "" "structure" none [("Mm", locOverrideSh)] "" ""

/-- Structure member `Name` with no overrides. -/
def plainRootSh : ServiceStructure :=
  .mk "" "structure" none [("Name", .mk "" "string" none [] "" "")] "" ""

/-- rest-json definition with one GET /foo operation. -/
def svcRestOneOp : ServiceDefinition :=
  { metadata := { endpointPrefix := "svc", protocol := "rest-json", serviceID := "SVC" },
    operations := [("Op1", { http := { method := "GET", requestURI := "/foo" } })] }

/-- rest-json definition with no operations. -/
def svcRestNoOps : ServiceDefinition :=
  { metadata := { endpointPrefix := "svc", protocol := "rest-json", serviceID := "SVC" } }

/-- json-protocol definition. -/
def svcJson : ServiceDefinition :=
  { metadata := { endpointPrefix := "js", protocol := "json", serviceID := "JS" } }

/-- A definition for endpoint prefix `ec2` whose protocol field is left at
its zero value (enough to witness whether the classifier selected it). -/
def svcEC2Marker : ServiceDefinition :=
  { metadata := { endpointPrefix := "ec2", serviceID := "EC2X" } }

/-! ### Leaf paths of override-free shape trees

Specification device for the idempotence analysis: `plainLeaves` collects,
in the resolver's visitation order, the `(logical path, wire path)` pair of
every scalar leaf of a shape tree, refusing (`none`) shapes that use shape
references, `locationName`/`queryName` overrides, empty member names, or a
list without an element — exactly the features that make wire and logical
spelling diverge or make the resolver fault. -/

/-- Member-list traversal matching `structLoop`'s path construction. -/
def leavesMembers (recur : ServiceStructure → String → String → Option (List (String × String))) :
    List (String × ServiceStructure) → String → String → Option (List (String × String))
  | [], _, _ => some []
  | (k, v) :: rest, path, loc =>
    if k = "" then none
    else
      match recur v (if path = "" then k else path ++ "." ++ k) (loc ++ "." ++ k),
            leavesMembers recur rest path loc with
      | some a, some b => some (a ++ b)
      | _, _ => none

/-- The scalar leaves of an override-free shape tree, in resolver order. -/
def plainLeaves : Nat → ServiceStructure → String → String → Option (List (String × String))
  | 0, _, _, _ => none
  | fuel+1, obj, path, loc =>
    if obj.shape ≠ "" ∨ obj.locationName ≠ "" ∨ obj.queryName ≠ "" then none
    else
      match tyKind obj.type with
      | .dead => some []
      | .structK => leavesMembers (fun v p l => plainLeaves fuel v p l) obj.members path loc
      | .scalarK => some [(path, loc)]
      | .listK =>
        match obj.member with
        | none => none
        | some m => plainLeaves fuel m (path ++ "[]") (loc ++ "[]")
      | .otherK => some []

/-- The logical path of the first leaf whose trimmed, lower-cased wire path
equals the key, or `""`. -/
def firstMatch (L : List (String × String)) (key : String) : String :=
  match L.find? (fun x => strLower (trimWire x.2) == key) with
  | some x => x.1
  | none => ""

/-- Override-free counterpart of the Filters shapes, for the idempotence
witness. -/
def wNameSh : ServiceStructure := .mk "" "string" none [] "" ""

def wStructSh : ServiceStructure := .mk "" "structure" none [("Name", wNameSh)] "" ""

def wListSh : ServiceStructure := .mk "" "list" (some wStructSh) [] "" ""

def wRootSh : ServiceStructure := .mk "" "structure" none [("Filters", wListSh)] "" ""

/-! ### Shared lemmas -/

/-- Scanning a definition list none of whose endpoint prefixes match leaves
the accumulator unchanged (lines 281-285). -/
theorem foldl_select_none {pfx : String} :
    ∀ (defs : List ServiceDefinition) (acc : ServiceDefinition),
      (∀ d ∈ defs, d.metadata.endpointPrefix ≠ pfx) →
      defs.foldl (fun acc d => if d.metadata.endpointPrefix = pfx then d else acc) acc = acc
  | [], _, _ => rfl
  | d :: ds, acc, h => by
    simp only [List.foldl_cons]
    rw [if_neg (h d (by simp))]
    exact foldl_select_none ds acc (fun x hx => h x (by simp [hx]))

/-- With no matching prefix anywhere, selection yields the zero-value
definition. -/
theorem selectDef_none {pfx : String} (defs : List ServiceDefinition)
    (h : ∀ d ∈ defs, d.metadata.endpointPrefix ≠ pfx) :
    selectDef defs pfx = zeroDef :=
  foldl_select_none defs zeroDef h

/-- An operation that fails the method-and-pattern test leaves the
rest-json operation-loop accumulator unchanged (lines 303-318). -/
theorem opStep_no_match {method path : String} (acc : String × List (String × String))
    (x : String × ServiceOperation)
    (h : ¬ (x.2.http.method = method ∧ (opURIMatch x.2 path).isSome)) :
    opStep method path acc x = acc := by
  unfold opStep
  cases hm : opURIMatch x.2 path with
  | none => rfl
  | some caps =>
    have : ¬ x.2.http.method = method := fun hc => h ⟨hc, by rw [hm]; rfl⟩
    simp [this]

/-- When no operation matches, the whole loop keeps `("*", ∅)`. -/
theorem opsFold_no_match {method path : String} :
    ∀ (ops : List (String × ServiceOperation)) (acc : String × List (String × String)),
      (∀ x ∈ ops, ¬ (x.2.http.method = method ∧ (opURIMatch x.2 path).isSome)) →
      ops.foldl (opStep method path) acc = acc
  | [], _, _ => rfl
  | x :: xs, acc, h => by
    simp only [List.foldl_cons]
    rw [opStep_no_match acc x (h x (by simp))]
    exact opsFold_no_match xs acc (fun y hy => h y (by simp [hy]))

/-! ### C1 — no matching service definition -/

/-- C1 counterexample: `foo.amazonaws.com` passes the host check, no
definition is loaded at all, and a `CallRecord` IS appended (zero-value
service, action `*`), contradicting "no CallRecord is appended". -/
theorem c1_counterexample :
    handleAWSRequest 20 [] "foo.amazonaws.com" "GET" "/" "" "" 200
      = .record { region := "us-east-1", type := "ProxyCall", service := "", method := "*",
                  parameters := [], uriParameters := [], finalHTTPStatusCode := 200 } := by
  decide

/-- C1 amended: when the host passes the provider-suffix check but no loaded
definition's `endpointPrefix` equals the derived prefix, the request is NOT
ignored: the zero-value service definition is kept, no protocol branch runs,
and a CallRecord with empty service id and action `*` is appended. -/
theorem c1_amended (fuel : Nat) (defs : List ServiceDefinition)
    (host method uri amzTarget body : String) (respCode : Nat) (pfx : String)
    (hclass : classifyHost host = .derived pfx)
    (hnone : ∀ d ∈ defs, d.metadata.endpointPrefix ≠ pfx) :
    handleAWSRequest fuel defs host method uri amzTarget body respCode =
      .record { region := regionFromHost host, type := "ProxyCall", service := "",
                method := "*", parameters := [], uriParameters := [],
                finalHTTPStatusCode := respCode } := by
  unfold handleAWSRequest
  rw [hclass]
  simp only [selectDef_none defs hnone]
  rfl

/-- C1 witness: the amended theorem applied at `foo.amazonaws.com` with an
empty registry. -/
theorem c1_witness :
    classifyHost "foo.amazonaws.com" = .derived "foo" ∧
    handleAWSRequest 7 [] "foo.amazonaws.com" "GET" "/" "" "" 200
      = .record { region := regionFromHost "foo.amazonaws.com", type := "ProxyCall",
                  service := "", method := "*", parameters := [], uriParameters := [],
                  finalHTTPStatusCode := 200 } :=
  ⟨by decide,
   c1_amended 7 [] "foo.amazonaws.com" "GET" "/" "" "" 200 "foo" (by decide) (by simp)⟩

/-! ### C2 — rest-json with no matching operation -/

/-- C2 counterexample: rest-json service with a single `GET /foo` operation;
a `POST /bar` request matches no operation, yet a CallRecord with action `*`
is appended, contradicting "no CallRecord is emitted". -/
theorem c2_counterexample :
    handleAWSRequest 20 [svcRestOneOp] "svc.amazonaws.com" "POST" "/bar" "" "" 200
      = .record { region := "us-east-1", type := "ProxyCall", service := "SVC", method := "*",
                  parameters := [], uriParameters := [], finalHTTPStatusCode := 200 } := by
  decide

/-- C2 amended: when no operation passes the method-and-pattern test, the
request is not dropped — the action stays `*` and a CallRecord is still
appended once the URI parses (shown here for requests with an empty query
string and empty body). -/
theorem c2_amended (fuel : Nat) (ops : List (String × ServiceOperation))
    (shapes : List (String × ServiceStructure)) (sid method uri path : String) (respCode : Nat)
    (hparse : parseRequestURI uri = some (path, ""))
    (hnomatch : ∀ x ∈ ops, ¬ (x.2.http.method = method ∧ (opURIMatch x.2 path).isSome)) :
    handleAWSRequest fuel
      [{ metadata := { endpointPrefix := "svc", protocol := "rest-json", serviceID := sid },
         operations := ops, shapes := shapes }]
      "svc.amazonaws.com" method uri "" "" respCode =
    .record { region := "us-east-1", type := "ProxyCall", service := sid, method := "*",
              parameters := [], uriParameters := [], finalHTTPStatusCode := respCode } := by
  unfold handleAWSRequest
  have hclass : classifyHost "svc.amazonaws.com" = .derived "svc" := by decide
  rw [hclass]
  have hbranch : restJsonBranch fuel
      { metadata := { endpointPrefix := "svc", protocol := "rest-json", serviceID := sid },
        operations := ops, shapes := shapes } method uri "" = .out "*" [] [] := by
    unfold restJsonBranch
    rw [hparse]
    simp only [opsFold_no_match ops ("*", []) hnomatch]
    rfl
  show emitLog _ _ _ (dispatchBranch _ _ _ _ _ _) = _
  rw [show dispatchBranch fuel
      (selectDef [{ metadata := { endpointPrefix := "svc", protocol := "rest-json",
                                  serviceID := sid }, operations := ops, shapes := shapes }] "svc")
      method uri "" "" = restJsonBranch fuel
      { metadata := { endpointPrefix := "svc", protocol := "rest-json", serviceID := sid },
        operations := ops, shapes := shapes } method uri "" from rfl]
  rw [hbranch]
  rfl

/-- C2 witness: the amended theorem applied to a one-operation `GET /foo`
service with a `POST /bar` request. -/
theorem c2_witness :
    parseRequestURI "/bar" = some ("/bar", "") ∧
    handleAWSRequest 20
      [{ metadata := { endpointPrefix := "svc", protocol := "rest-json", serviceID := "SVC" },
         operations := [("Op1", { http := { method := "GET", requestURI := "/foo" } })],
         shapes := [] }]
      "svc.amazonaws.com" "POST" "/bar" "" "" 200 =
    .record { region := "us-east-1", type := "ProxyCall", service := "SVC", method := "*",
              parameters := [], uriParameters := [], finalHTTPStatusCode := 200 } :=
  ⟨by decide,
   c2_amended 20 [("Op1", { http := { method := "GET", requestURI := "/foo" } })] [] "SVC"
     "POST" "/bar" "/bar" 200 (by decide) (by decide)⟩

/-! ### C3 — amazonaws.com.cn hosts -/

/-- C3: `createProxy`'s hostname filter admits `ec2.amazonaws.com.cn`, but
`handleAWSRequest`'s own split-based check requires the LAST label to be
`com`, so the `.cn` request is dropped with no decoding, while the same
request to `ec2.amazonaws.com` selects the `ec2` definition and is recorded.
The code contradicts its own `(?:\.cn)?` alternations (lines 158 and 397). -/
theorem c3_theorem :
    isAWSHostname "ec2.amazonaws.com.cn" = true ∧
    handleAWSRequest 20 [svcEC2Marker] "ec2.amazonaws.com.cn" "POST" "/" "" "" 200
      = .noRecord ∧
    handleAWSRequest 20 [svcEC2Marker] "ec2.amazonaws.com" "POST" "/" "" "" 200
      = .record { region := "us-east-1", type := "ProxyCall", service := "EC2X", method := "*",
                  parameters := [], uriParameters := [], finalHTTPStatusCode := 200 } :=
  ⟨by decide, by decide, by decide⟩

/-! ### C4 — top-level scalar JSON bodies -/

/-- C4 counterexample: under the json protocol a body decoding to the bare
scalar `5` is a flatten error, yet a CallRecord IS appended (the error
return of `flatten` is discarded at line 356), contradicting "no CallRecord
is emitted". -/
theorem c4_counterexample :
    handleAWSRequest 40 [svcJson] "js.amazonaws.com" "POST" "/" "A.B" "5" 200
      = .record { region := "us-east-1", type := "ProxyCall", service := "JS", method := "B",
                  parameters := [], uriParameters := [], finalHTTPStatusCode := 200 } := by
  decide

/-- C4 amended: a top-level JSON value that is neither object nor array is
indeed a flatten error, but the dispatcher discards the error (lines 345 and
356), so under both json and rest-json a CallRecord is still emitted, with
no body-derived parameters. -/
theorem c4_amended (fuel : Nat) (acc : FlatMap) (pre : String) (j : Json)
    (h : isScalarJson j = true) :
    flattenGo fuel true acc j pre = none ∧
    handleAWSRequest 40 [svcJson] "js.amazonaws.com" "POST" "/" "A.B" "5" 200
      = .record { region := "us-east-1", type := "ProxyCall", service := "JS", method := "B",
                  parameters := [], uriParameters := [], finalHTTPStatusCode := 200 } ∧
    handleAWSRequest 40 [svcRestNoOps] "svc.amazonaws.com" "GET" "/" "" "5" 200
      = .record { region := "us-east-1", type := "ProxyCall", service := "SVC", method := "*",
                  parameters := [], uriParameters := [], finalHTTPStatusCode := 200 } := by
  refine ⟨?_, by decide, by decide⟩
  cases j with
  | obj fields => simp [isScalarJson] at h
  | arr elems => simp [isScalarJson] at h
  | str s => cases fuel <;> rfl
  | num n => cases fuel <;> rfl
  | bool b => cases fuel <;> rfl
  | null => cases fuel <;> rfl

/-- C4 witness: the amended theorem applied to the scalar `7`. -/
theorem c4_witness :
    isScalarJson (Json.num 7) = true ∧ flattenGo 3 true [] (Json.num 7) "zz" = none :=
  ⟨by decide, (c4_amended 3 [] "zz" (Json.num 7) (by decide)).1⟩

/-! ### C5 — locationName overrides in the Shape Resolver -/

/-- C5 counterexample: with the spec's shapes (structure member `Filters`,
list element structure member `Name` carrying `locationName "FilterName"`)
the wire key `FilterName[]` does NOT resolve to `Filters[].Name` — the
accumulated wire path at the leaf is `Filters[].FilterName`, so resolution
misses and returns the empty string. -/
theorem c5_counterexample :
    resolvePropertyName 10 filtersRootSh "FilterName[]" "" "" [] = .ok "" ∧
    resolvePropertyName 10 filtersRootSh "FilterName[]" "" "" [] ≠ .ok "Filters[].Name" :=
  ⟨by decide, by decide⟩

/-- C5 amended: the wire segment of a structure member is `queryName` when
set, else `locationName` when set, else the schema name (first four
conjuncts), and the override example resolves from the FULL wire path
`Filters[].FilterName` — not from `FilterName[]` — to `Filters[].Name`. -/
theorem c5_amended :
    resolvePropertyName 10 bothRootSh "QN" "" "" [] = .ok "Mm" ∧
    resolvePropertyName 10 bothRootSh "LN" "" "" [] = .ok "" ∧
    resolvePropertyName 10 bothRootSh "Mm" "" "" [] = .ok "" ∧
    resolvePropertyName 10 locRootSh "LN" "" "" [] = .ok "Mm" ∧
    resolvePropertyName 10 plainRootSh "Name" "" "" [] = .ok "Name" ∧
    resolvePropertyName 10 filtersRootSh "Filters[].FilterName" "" "" [] = .ok "Filters[].Name" :=
  ⟨by decide, by decide, by decide, by decide, by decide, by decide⟩

/-! ### C7 — index normalization -/

/-- C7: index normalization first collapses every `.member.<N>` segment to
`[]`, then every remaining `.<N>` segment (third conjunct: the two passes
compose in exactly that order), so `Filter.1.Name` normalizes to
`Filter[].Name` and `Filter.member.2.Value` to `Filter[].Value`. -/
theorem c7_theorem :
    normalizeKey "Filter.1.Name" = "Filter[].Name" ∧
    normalizeKey "Filter.member.2.Value" = "Filter[].Value" ∧
    ∀ k : String, normalizeKey k =
      String.mk (stripNumIdx ((stripMemberIdx (k.data.length + 1) k.data).length + 1)
        (stripMemberIdx (k.data.length + 1) k.data)) :=
  ⟨by decide, by decide, fun _ => rfl⟩

/-! ### C8 — the Value Flattener -/

/-- C8: the flattener sends top-level object keys to roots named exactly
that key regardless of the incoming prefix (third conjunct), nests objects
under `p.k`, collapses all array elements onto the single root `p[]`, and
appends scalar renderings — so `{"a":{"b":[1,2]}}` flattens to
`{"a.b[]": ["1","2"]}` and `{"x":"y"}` to `{"x": ["y"]}`. -/
theorem c8_theorem :
    flattenGo 10 true [] (Json.obj [("a", Json.obj [("b", Json.arr [Json.num 1, Json.num 2])])]) ""
      = some [("a.b[]", ["1", "2"])] ∧
    flattenGo 10 true [] (Json.obj [("x", Json.str "y")]) "" = some [("x", ["y"])] ∧
    ∀ (fuel : Nat) (acc : FlatMap) (kvs : List (String × Json)) (p1 p2 : String),
      flattenGo (fuel + 1) true acc (Json.obj kvs) p1
        = flattenGo (fuel + 1) true acc (Json.obj kvs) p2 :=
  ⟨by decide, by decide, fun _ _ _ _ _ => rfl⟩

/-! ### C9 — resolver totality -/

/-- C9: `resolvePropertyName` is NOT total in its search key — the
unguarded slice `searchProp[len(searchProp)-2:]` at line 417 faults for
keys shorter than two characters (directly, or after the entry strip eats a
trailing `[]`), and the fault is reachable from the dispatcher via a
one-character query parameter. -/
theorem c9_theorem :
    resolvePropertyName 10 zeroSS "x" "" "" [] = .fault ∧
    resolvePropertyName 10 zeroSS "" "" "" [] = .fault ∧
    resolvePropertyName 10 filtersRootSh "[]" "" "" [] = .fault ∧
    handleAWSRequest 40 [svcRestNoOps] "svc.amazonaws.com" "GET" "/?x=1" "" "" 200 = .fault :=
  ⟨by decide, by decide, by decide, by decide⟩

/-! ### C10 — dotless X-Amz-Target -/

/-- C10: under the json protocol with a valid JSON body,
`strings.Split(header, ".")[1]` at line 355 faults (index out of range)
when the non-empty `X-Amz-Target` header contains no dot, instead of
computing an action. -/
theorem c10_theorem :
    (strSplit "NoDot" '.').get? 1 = none ∧
    handleAWSRequest 40 [svcJson] "js.amazonaws.com" "POST" "/" "NoDot" "{}" 200 = .fault :=
  ⟨by decide, by decide⟩

/-! ### C6 — idempotence of resolution

Infrastructure: string-level facts about the trimming helpers, `List.find?`
facts, the leaf-path invariants of `plainLeaves`, and the characterization
of `resolvePropertyName` on override-free shapes as a first-match lookup
over the leaf list. -/

theorem str_eq_empty_iff (s : String) : s = "" ↔ s.data = [] := by
  rw [String.ext_iff]

theorem strEndsWith_iff (s suf : String) :
    strEndsWith s suf = true ↔ ∃ t, s.data = t ++ suf.data := by
  unfold strEndsWith
  rw [Bool.and_eq_true, decide_eq_true_eq, beq_iff_eq]
  constructor
  · rintro ⟨hle, hdrop⟩
    refine ⟨s.data.take (s.data.length - suf.data.length), ?_⟩
    conv_lhs => rw [← List.take_append_drop (s.data.length - suf.data.length) s.data]
    rw [hdrop]
  · rintro ⟨t, ht⟩
    refine ⟨by rw [ht]; simp, ?_⟩
    rw [ht]
    have hl : (t ++ suf.data).length - suf.data.length = t.length := by simp
    rw [hl, List.drop_left]

theorem endsBr_iff (s : String) : endsBr s = true ↔ ∃ t, s.data = t ++ ['[', ']'] :=
  strEndsWith_iff s "[]"

theorem stripBr_of_endsBr {s : String} {t : List Char} (ht : s.data = t ++ ['[', ']']) :
    (stripBr s).data = t := by
  have hbr : endsBr s = true := (endsBr_iff s).2 ⟨t, ht⟩
  unfold stripBr strDropLast
  rw [if_pos hbr]
  show (s.data.take (s.data.length - 2)) = t
  rw [ht]
  simp

theorem stripBr_of_not_endsBr {s : String} (h : endsBr s = false) : stripBr s = s := by
  unfold stripBr
  rw [h]
  rfl

/-- The scalar-leaf wire trimming agrees with the search-key strip across
the leading dot: `trimWire ("." ++ P) = stripBr P`. -/
theorem trimWire_dot (P W : String) (hW : W.data = '.' :: P.data) :
    trimWire W = stripBr P := by
  apply String.ext
  by_cases hbr : endsBr P = true
  · obtain ⟨t, ht⟩ := (endsBr_iff P).1 hbr
    have hWbr : endsBr W = true := (endsBr_iff W).2 ⟨'.' :: t, by rw [hW, ht]; rfl⟩
    have hWlen : 2 < W.data.length := by rw [hW, ht]; simp
    have hlp : (strDropLast W 2).data = '.' :: t := by
      show W.data.take (W.data.length - 2) = '.' :: t
      rw [hW, ht]
      have h1 : ('.' :: (t ++ ['[', ']'])).length - 2 = t.length + 1 := by
        simp [List.length_append]
      rw [h1, List.take_succ_cons, List.take_left]
    unfold trimWire
    rw [show (if 2 < W.data.length ∧ endsBr W = true then strDropLast W 2 else W)
        = strDropLast W 2 from if_pos ⟨hWlen, hWbr⟩]
    rw [show (if 0 < (strDropLast W 2).data.length ∧ strFront (strDropLast W 2) = '.'
          then String.mk ((strDropLast W 2).data.drop 1) else strDropLast W 2)
        = String.mk ((strDropLast W 2).data.drop 1) from
        if_pos ⟨by rw [hlp]; simp, by unfold strFront; rw [hlp]; rfl⟩]
    show (strDropLast W 2).data.drop 1 = (stripBr P).data
    rw [hlp, stripBr_of_endsBr ht]
    rfl
  · have hbrf : endsBr P = false := by simpa using hbr
    have hWbr : endsBr W = false := by
      by_contra hc
      rw [Bool.not_eq_false] at hc
      obtain ⟨t, htW⟩ := (endsBr_iff W).1 hc
      cases t with
      | nil => rw [hW] at htW; exact absurd htW (by simp)
      | cons c t' =>
        rw [hW] at htW
        simp only [List.cons_append] at htW
        injection htW with h1 h2
        exact hbr ((endsBr_iff P).2 ⟨t', h2⟩)
    unfold trimWire
    rw [show (if 2 < W.data.length ∧ endsBr W = true then strDropLast W 2 else W)
        = W from if_neg (by rw [hWbr]; simp)]
    rw [show (if 0 < W.data.length ∧ strFront W = '.'
          then String.mk (W.data.drop 1) else W)
        = String.mk (W.data.drop 1) from
        if_pos ⟨by rw [hW]; simp, by unfold strFront; rw [hW]; rfl⟩]
    show W.data.drop 1 = (stripBr P).data
    rw [hW, stripBr_of_not_endsBr hbrf]
    rfl

theorem find?_congr_mem {α : Type} (p q : α → Bool) :
    ∀ (L : List α), (∀ x ∈ L, p x = q x) → L.find? p = L.find? q
  | [], _ => rfl
  | a :: l, h => by
    rw [List.find?_cons, List.find?_cons, h a (by simp)]
    cases q a with
    | true => rfl
    | false => exact find?_congr_mem p q l (fun x hx => h x (by simp [hx]))

/-- In a list whose images under `f` are duplicate-free, searching for the
image of a member finds exactly that member. -/
theorem find?_map_nodup {α : Type} (f : α → String) (key : String) :
    ∀ (L : List α), (L.map f).Nodup → ∀ x₀ ∈ L, f x₀ = key →
      L.find? (fun x => f x == key) = some x₀
  | [], _, x₀, hx, _ => absurd hx (by simp)
  | a :: l, hnd, x₀, hx, hkey => by
    rw [List.map_cons, List.nodup_cons] at hnd
    rcases List.mem_cons.1 hx with h | h
    · subst h
      rw [List.find?_cons_of_pos _ (by simp [hkey])]
    · have hne : (f a == key) = false := by
        rw [Bool.eq_false_iff]
        intro hc
        rw [beq_iff_eq] at hc
        exact hnd.1 (by rw [hc, ← hkey]; exact List.mem_map_of_mem f h)
      rw [List.find?_cons, hne]
      exact find?_map_nodup f key l hnd.2 x₀ h hkey

theorem plainLeaves_plain {fuel : Nat} {obj : ServiceStructure} {path loc : String}
    {L : List (String × String)} (h : plainLeaves fuel obj path loc = some L) :
    obj.shape = "" ∧ obj.locationName = "" ∧ obj.queryName = "" := by
  cases fuel with
  | zero => simp [plainLeaves] at h
  | succ f =>
    unfold plainLeaves at h
    split at h
    · exact absurd h (by simp)
    · next hguard =>
      push_neg at hguard
      exact hguard

theorem plainLeaves_succ_eq (fuel : Nat) (obj : ServiceStructure) (path loc : String)
    (hpl : obj.shape = "" ∧ obj.locationName = "" ∧ obj.queryName = "") :
    plainLeaves (fuel+1) obj path loc =
      match tyKind obj.type with
      | .dead => some []
      | .structK => leavesMembers (fun v p l => plainLeaves fuel v p l) obj.members path loc
      | .scalarK => some [(path, loc)]
      | .listK =>
        match obj.member with
        | none => none
        | some m => plainLeaves fuel m (path ++ "[]") (loc ++ "[]")
      | .otherK => some [] := by
  conv_lhs => rw [plainLeaves]
  rw [if_neg (by simp [hpl.1, hpl.2.1, hpl.2.2])]

theorem resolve_succ_plain (fuel : Nat) (obj : ServiceStructure) (s path loc : String)
    (shapes : List (String × ServiceStructure))
    (hsh : obj.shape = "") (hlen : 2 ≤ s.data.length) :
    resolvePropertyName (fuel+1) obj s path loc shapes =
      match tyKind obj.type with
      | .dead => .ok ""
      | .structK =>
        structLoop (fun v p lp => resolvePropertyName fuel v (stripBr s) p lp shapes)
          obj.members path loc
      | .scalarK =>
        if strLower (trimWire loc) = strLower (stripBr s) then .ok path else .ok ""
      | .listK =>
        match obj.member with
        | none => .fault
        | some m =>
          match resolvePropertyName fuel m (stripBr s) (path ++ "[]") (loc ++ "[]") shapes with
          | .ok "" => .ok ""
          | r => r
      | .otherK => .ok "" := by
  conv_lhs => rw [resolvePropertyName]
  rw [if_neg (Nat.not_lt.2 hlen)]
  rw [if_neg (show ¬ obj.shape ≠ "" from by simp [hsh])]

/-- Below any nonempty logical path whose wire path is `"." ++ path`, every
leaf of an override-free tree keeps wire = `"."` ++ logical, and its logical
path stays nonempty. -/
theorem plainLeaves_inv : ∀ (fuel : Nat) (obj : ServiceStructure) (path loc : String)
    (L : List (String × String)),
    plainLeaves fuel obj path loc = some L →
    loc.data = '.' :: path.data → path ≠ "" →
    ∀ x ∈ L, x.2.data = '.' :: x.1.data ∧ x.1 ≠ "" := by
  intro fuel
  induction fuel with
  | zero => intro obj path loc L h _ _; simp [plainLeaves] at h
  | succ f ih =>
    intro obj path loc L h hloc hpath
    have hpl := plainLeaves_plain h
    rw [plainLeaves_succ_eq f obj path loc hpl] at h
    cases hk : tyKind obj.type
    case dead => rw [hk] at h; simp at h; subst h; simp
    case otherK => rw [hk] at h; simp at h; subst h; simp
    case scalarK =>
      rw [hk] at h
      simp at h
      subst h
      intro x hx
      simp at hx
      subst hx
      exact ⟨hloc, hpath⟩
    case listK =>
      rw [hk] at h
      cases hm : obj.member with
      | none => rw [hm] at h; simp at h
      | some m =>
        rw [hm] at h
        refine ih m (path ++ "[]") (loc ++ "[]") L h ?_ ?_
        · simp [hloc]
        · intro hc
          rw [str_eq_empty_iff] at hc
          simp at hc
    case structK =>
      rw [hk] at h
      -- member-list traversal, by induction on the list
      clear hk hpl
      generalize hms : obj.members = ms at h
      clear hms
      induction ms generalizing L with
      | nil =>
        simp [leavesMembers] at h
        subst h
        simp
      | cons kv rest ihm =>
        obtain ⟨k, v⟩ := kv
        unfold leavesMembers at h
        split at h
        · simp at h
        · next hkne =>
          cases ha : plainLeaves f v (path ++ "." ++ k) (loc ++ "." ++ k) with
          | none => rw [ha] at h; simp at h
          | some a =>
            cases hb : leavesMembers (fun v p l => plainLeaves f v p l) rest path loc with
            | none => rw [ha, hb] at h; simp at h
            | some b =>
              rw [ha, hb] at h
              simp at h
              subst h
              intro x hx
              rcases List.mem_append.1 hx with hxa | hxb
              · refine ih v (path ++ "." ++ k) (loc ++ "." ++ k) a ha ?_ ?_ x hxa
                · simp [hloc]
                · intro hc
                  rw [str_eq_empty_iff] at hc
                  simp at hc
              · exact ihm b hb x hxb

/-- At the root of an override-free structure shape, every leaf satisfies
wire = `"."` ++ logical with a nonempty logical path. -/
theorem plainLeaves_root_inv (fuel : Nat) (S : ServiceStructure) (L : List (String × String))
    (hty : tyKind S.type = .structK)
    (hL : plainLeaves fuel S "" "" = some L) :
    ∀ x ∈ L, x.2.data = '.' :: x.1.data ∧ x.1 ≠ "" := by
  cases fuel with
  | zero => simp [plainLeaves] at hL
  | succ f =>
    have hpl := plainLeaves_plain hL
    rw [plainLeaves_succ_eq f S "" "" hpl, hty] at hL
    clear hty hpl
    generalize hms : S.members = ms at hL
    clear hms
    induction ms generalizing L with
    | nil =>
      simp [leavesMembers] at hL
      subst hL
      simp
    | cons kv rest ihm =>
      obtain ⟨k, v⟩ := kv
      unfold leavesMembers at hL
      split at hL
      · simp at hL
      · next hkne =>
        rw [if_pos rfl] at hL
        cases ha : plainLeaves f v k ("" ++ "." ++ k) with
        | none => rw [ha] at hL; simp at hL
        | some a =>
          cases hb : leavesMembers (fun v p l => plainLeaves f v p l) rest "" "" with
          | none => rw [ha, hb] at hL; simp at hL
          | some b =>
            rw [ha, hb] at hL
            simp at hL
            subst hL
            intro x hx
            rcases List.mem_append.1 hx with hxa | hxb
            · refine plainLeaves_inv f v k ("" ++ "." ++ k) a ha ?_ hkne x hxa
              simp
            · exact ihm b hb x hxb

theorem firstMatch_append_none (a b : List (String × String)) (key : String)
    (hne : ∀ x ∈ a, x.1 ≠ "") (h0 : firstMatch a key = "") :
    firstMatch (a ++ b) key = firstMatch b key := by
  unfold firstMatch at h0 ⊢
  rw [List.find?_append]
  cases hf : a.find? (fun x => strLower (trimWire x.2) == key) with
  | none => rfl
  | some x =>
    rw [hf] at h0
    exact absurd h0 (hne x (List.mem_of_find?_eq_some hf))

theorem firstMatch_append_pos (a b : List (String × String)) (key : String)
    (h0 : firstMatch a key ≠ "") :
    firstMatch (a ++ b) key = firstMatch a key := by
  unfold firstMatch at h0 ⊢
  rw [List.find?_append]
  cases hf : a.find? (fun x => strLower (trimWire x.2) == key) with
  | none => rw [hf] at h0; exact absurd rfl h0
  | some x => rfl

/-- The member loop of the resolver computes the first match over the
concatenated member leaf lists (override-free shapes). -/
theorem structLoop_char (f : Nat) (shapes : List (String × ServiceStructure)) (s' : String)
    (IH : ∀ (obj : ServiceStructure) (path loc : String) (L : List (String × String)),
      plainLeaves f obj path loc = some L → (∀ x ∈ L, x.1 ≠ "") →
      resolvePropertyName f obj s' path loc shapes
        = .ok (firstMatch L (strLower (stripBr s')))) :
    ∀ (ms : List (String × ServiceStructure)) (path loc : String) (Lm : List (String × String)),
      leavesMembers (fun v p l => plainLeaves f v p l) ms path loc = some Lm →
      (∀ x ∈ Lm, x.1 ≠ "") →
      structLoop (fun v p lp => resolvePropertyName f v s' p lp shapes) ms path loc
        = .ok (firstMatch Lm (strLower (stripBr s'))) := by
  intro ms
  induction ms with
  | nil =>
    intro path loc Lm h _
    simp [leavesMembers] at h
    subst h
    rfl
  | cons kv rest ihm =>
    intro path loc Lm h hne
    obtain ⟨k, v⟩ := kv
    unfold leavesMembers at h
    split at h
    · simp at h
    · next hkne =>
      cases ha : plainLeaves f v (if path = "" then k else path ++ "." ++ k)
          (loc ++ "." ++ k) with
      | none => rw [ha] at h; simp at h
      | some a =>
        cases hb : leavesMembers (fun v p l => plainLeaves f v p l) rest path loc with
        | none => rw [ha, hb] at h; simp at h
        | some b =>
          rw [ha, hb] at h
          simp at h
          subst h
          have hvpl := plainLeaves_plain ha
          have hnea : ∀ x ∈ a, x.1 ≠ "" := fun x hx => hne x (List.mem_append_left b hx)
          have hneb : ∀ x ∈ b, x.1 ≠ "" := fun x hx => hne x (List.mem_append_right a hx)
          conv_lhs => rw [structLoop]
          rw [show (if v.queryName ≠ "" then loc ++ "." ++ v.queryName
                else if v.locationName ≠ "" then loc ++ "." ++ v.locationName
                else loc ++ "." ++ k) = loc ++ "." ++ k from by
              rw [if_neg (by simp [hvpl.2.2]), if_neg (by simp [hvpl.2.1])]]
          rw [IH v (if path = "" then k else path ++ "." ++ k) (loc ++ "." ++ k) a ha hnea]
          by_cases hfa : firstMatch a (strLower (stripBr s')) = ""
          · rw [hfa]
            rw [ihm path loc b hb hneb]
            rw [firstMatch_append_none a b (strLower (stripBr s')) hnea hfa]
            rfl
          · rw [firstMatch_append_pos a b (strLower (stripBr s')) hfa]
            split
            · next heq =>
              injection heq with heq'
              exact absurd heq' hfa
            · rfl

/-- Characterization: on an override-free shape tree the resolver returns
the logical path of the first leaf whose trimmed lower-cased wire path
equals the stripped lower-cased search key. -/
theorem resolve_plain_char : ∀ (fuel : Nat) (obj : ServiceStructure) (s path loc : String)
    (shapes : List (String × ServiceStructure)) (L : List (String × String)),
    plainLeaves fuel obj path loc = some L →
    (∀ x ∈ L, x.1 ≠ "") →
    2 ≤ s.data.length → 2 ≤ (stripBr s).data.length → endsBr (stripBr s) = false →
    resolvePropertyName fuel obj s path loc shapes
      = .ok (firstMatch L (strLower (stripBr s))) := by
  intro fuel
  induction fuel with
  | zero => intro obj s path loc shapes L h; simp [plainLeaves] at h
  | succ f ih =>
    intro obj s path loc shapes L h hne hs2 hs2' hnb
    have hpl := plainLeaves_plain h
    have hstrip : stripBr (stripBr s) = stripBr s := stripBr_of_not_endsBr hnb
    rw [plainLeaves_succ_eq f obj path loc hpl] at h
    rw [resolve_succ_plain f obj s path loc shapes hpl.1 hs2]
    cases hk : tyKind obj.type
    case dead => rw [hk] at h; simp at h; subst h; rfl
    case otherK => rw [hk] at h; simp at h; subst h; rfl
    case scalarK =>
      rw [hk] at h
      simp at h
      subst h
      by_cases hcmp : strLower (trimWire loc) = strLower (stripBr s)
      · rw [if_pos hcmp]
        unfold firstMatch
        rw [List.find?_cons_of_pos]
        simp [hcmp]
      · rw [if_neg hcmp]
        unfold firstMatch
        rw [List.find?_cons_of_neg]
        · rfl
        · simp [hcmp]
    case listK =>
      rw [hk] at h
      cases hm : obj.member with
      | none => rw [hm] at h; simp at h
      | some m =>
        rw [hm] at h
        replace h : plainLeaves f m (path ++ "[]") (loc ++ "[]") = some L := h
        have hrec := ih m (stripBr s) (path ++ "[]") (loc ++ "[]") shapes L h hne hs2'
          (by rw [hstrip]; exact hs2') (by rw [hstrip]; exact hnb)
        rw [hstrip] at hrec
        show (match resolvePropertyName f m (stripBr s) (path ++ "[]") (loc ++ "[]") shapes with
              | RRes.ok "" => RRes.ok ""
              | r => r) = RRes.ok (firstMatch L (strLower (stripBr s)))
        rw [hrec]
        by_cases hfm : firstMatch L (strLower (stripBr s)) = ""
        · rw [hfm]; rfl
        · split
          · next heq =>
            injection heq with heq'
            exact absurd heq' hfm
          · rfl
    case structK =>
      rw [hk] at h
      have IH' : ∀ (obj : ServiceStructure) (path loc : String) (L : List (String × String)),
          plainLeaves f obj path loc = some L → (∀ x ∈ L, x.1 ≠ "") →
          resolvePropertyName f obj (stripBr s) path loc shapes
            = .ok (firstMatch L (strLower (stripBr (stripBr s)))) :=
        fun obj path loc L hL hne' =>
          ih obj (stripBr s) path loc shapes L hL hne' hs2'
            (by rw [hstrip]; exact hs2') (by rw [hstrip]; exact hnb)
      have hloop := structLoop_char f shapes (stripBr s) IH' obj.members path loc L h hne
      rw [hstrip] at hloop
      exact hloop

/-- C6 counterexample: with a `locationName` override the Shape Resolver is
NOT idempotent — the canonical path `Filters[].Name` (produced from the wire
key `Filters[].FilterName`) re-resolves, re-normalized, to the empty string
rather than to itself, because the resolver compares the search key against
the WIRE path. -/
theorem c6_counterexample :
    resolvePropertyName 10 filtersRootSh "Filters[].FilterName" "" "" [] = .ok "Filters[].Name" ∧
    resolvePropertyName 10 filtersRootSh (normalizeKey "Filters[].Name") "" "" []
      = .ok "" :=
  ⟨by decide, by decide⟩

/-- C6 amended: idempotence holds on override-free shape trees.  If the
structure-rooted input shape uses no shape references and no
`locationName`/`queryName` overrides, has nonempty member names and a list
member wherever a list occurs (the `plainLeaves` hypothesis), its
lower-cased bracket-stripped leaf paths are duplicate-free, and `p` is the
canonical path of one of its leaves — normalization-stable, at least two
characters long, with a bracket-stripped form that is at least two
characters and not itself bracket-terminated — then resolving `p`
(re-normalized) against the shape returns `p` itself. -/
theorem c6_amended (fuel : Nat) (S : ServiceStructure)
    (shapes : List (String × ServiceStructure))
    (L : List (String × String)) (p : String)
    (hty : tyKind S.type = .structK)
    (hL : plainLeaves fuel S "" "" = some L)
    (hmem : p ∈ L.map Prod.fst)
    (hnd : (L.map (fun x => strLower (stripBr x.1))).Nodup)
    (hnorm : normalizeKey p = p)
    (hlen : 2 ≤ p.data.length)
    (hlen2 : 2 ≤ (stripBr p).data.length)
    (hnb : endsBr (stripBr p) = false) :
    resolvePropertyName fuel S (normalizeKey p) "" "" shapes = .ok p := by
  rw [hnorm]
  have hinv := plainLeaves_root_inv fuel S L hty hL
  have hne : ∀ x ∈ L, x.1 ≠ "" := fun x hx => (hinv x hx).2
  rw [resolve_plain_char fuel S p "" "" shapes L hL hne hlen hlen2 hnb]
  congr 1
  obtain ⟨x₀, hx₀, hx₀p⟩ := List.mem_map.1 hmem
  unfold firstMatch
  have hconv : ∀ x ∈ L, ((fun x => strLower (trimWire x.2) == strLower (stripBr p)) x)
      = ((fun x => strLower (stripBr x.1) == strLower (stripBr p)) x) := by
    intro x hx
    have ht := trimWire_dot x.1 x.2 (hinv x hx).1
    simp [ht]
  rw [find?_congr_mem _ _ L hconv]
  rw [find?_map_nodup (fun x => strLower (stripBr x.1)) (strLower (stripBr p)) L hnd x₀ hx₀
    (by simp [hx₀p])]
  exact hx₀p

/-- C6 witness: the amended theorem applied to the override-free
`Filters[].Name` shape. -/
theorem c6_witness :
    plainLeaves 10 wRootSh "" "" = some [("Filters[].Name", ".Filters[].Name")] ∧
    resolvePropertyName 10 wRootSh (normalizeKey "Filters[].Name") "" "" []
      = .ok "Filters[].Name" :=
  ⟨by decide,
   c6_amended 10 wRootSh [] [("Filters[].Name", ".Filters[].Name")] "Filters[].Name"
     (by decide) (by decide) (by decide) (by decide) (by decide) (by decide) (by decide)
     (by decide)⟩

end Iamlive
